import Mathlib

/-!
Shallow embedding of the UniBridge legacy flat-file adapter
(`legacy_parser.py` and the legacy endpoints of `app.py`).

Modelling conventions:
* a Python string is a `List Char` (`Str` below);
* the backing store file is a `List Str` of line contents, each line given
  without its terminating newline (the Python code reads lines and strips
  them before matching, and writes each line back followed by a newline);
* a missing backing store file is `Option.none` at the call sites that
  handle `FileNotFoundError`;
* Python truthiness on optional integer arguments (`if value_pos:`) is
  modelled by `pyTruthy`: both `None` and `0` are falsy;
* update-map values arrive already in string form (`str(v)` of a scalar,
  `[str(x) for x in v]` of a sequence), as `PyVal`;
* the `Decimal`/`strptime` coercions of `to_json` are abstracted by a pair
  of rendering oracles (`ParseOracles`): `some r` means the coercion
  succeeded and the resulting object prints as `r` via `str`, `none` means
  the coercion raised and the original string is kept.
-/

namespace UniBridge

abbrev Str := List Char

/-- Attribute Mark, `PickRecord.AM = '^'`. -/
def AM : Char := '^'

/-- Value Mark, `PickRecord.VM = ']'`. -/
def VM : Char := ']'

/-- SubValue Mark, `PickRecord.SM = '\\'`. -/
def SM : Char := '\\'

/-- The whitespace characters removed by Python `str.strip()` (ASCII part). -/
def isPySpace (c : Char) : Bool :=
  c = ' ' || c = '\t' || c = '\n' || c = '\r' || c = '\x0b' || c = '\x0c'

/-- Python `s.strip()`: drop whitespace from both ends. -/
def pyStrip (s : Str) : Str :=
  (s.dropWhile isPySpace).rdropWhile isPySpace

/-- Python `sep.join(parts)` for a one-character separator. -/
def pyJoin (sep : Char) : List Str → Str
  | [] => []
  | [a] => a
  | a :: rest => a ++ sep :: pyJoin sep rest

/-- Everything after the first occurrence of `c`: models
`s.split(c, 1)[1]` at call sites where `c` is known to occur in `s`. -/
def afterFirst (c : Char) : Str → Str
  | [] => []
  | x :: xs => if x = c then xs else afterFirst c xs

/-- Python truthiness of an optional integer: `None` and `0` are falsy. -/
def pyTruthy : Option Int → Bool
  | none => false
  | some n => n ≠ 0

/-- The in-memory record: `record_key`, `raw_data` (absent when no line
matched) and the cached `attributes` list. -/
structure PickRecord where
  record_key : Str
  raw_data : Option Str
  attributes : List Str
  deriving DecidableEq

/-- `PickRecord.__init__`: `attributes` is set to `raw_data.split(AM)`
only when `raw_data` is truthy (non-`None` and non-empty). -/
def mkPickRecord (key : Str) (raw : Option Str) : PickRecord :=
  { record_key := key
    raw_data := raw
    attributes :=
      match raw with
      | some r => if r = [] then [] else r.splitOn AM
      | none => [] }

/-- The per-line match test of `PickRecord.read`:
`line = line.strip(); if line and line.startswith(f"{record_key}{AM}")`. -/
def readLineHit (key : Str) (line : Str) : Bool :=
  !(pyStrip line).isEmpty && (key ++ [AM]).isPrefixOf (pyStrip line)

/-- The loop body of `PickRecord.read` over the file's lines. -/
def readLines (key : Str) : List Str → PickRecord
  | [] => mkPickRecord key none
  | line :: rest =>
    if readLineHit key line then
      mkPickRecord key (some (afterFirst AM (pyStrip line)))
    else
      readLines key rest

/-- `PickRecord.read`: `none` for the store models the
`FileNotFoundError` branch, which also returns a not-found record. -/
def read (key : Str) : Option (List Str) → PickRecord
  | some lines => readLines key lines
  | none => mkPickRecord key none

/-- `PickRecord.extract(attribute_pos, value_pos, subvalue_pos)`. -/
def extract (pr : PickRecord) (attribute_pos : Int)
    (value_pos : Option Int) (subvalue_pos : Option Int) : Str :=
  let attr_index : Int := attribute_pos - 1
  if 0 ≤ attr_index ∧ attr_index < (pr.attributes.length : Int) then
    let attr := pr.attributes.getD attr_index.toNat []
    if attr = [] then []
    else if pyTruthy value_pos then
      let values := attr.splitOn VM
      let value_index : Int := value_pos.getD 0 - 1
      if 0 ≤ value_index ∧ value_index < (values.length : Int) then
        let val := values.getD value_index.toNat []
        if pyTruthy subvalue_pos then
          let svs := val.splitOn SM
          let sindex : Int := subvalue_pos.getD 0 - 1
          if 0 ≤ sindex ∧ sindex < (svs.length : Int) then
            svs.getD sindex.toNat []
          else []
        else val
      else []
    else attr
  else []

/-- A value of the update map: Python strings/scalars arrive stringified,
lists/tuples arrive as lists of stringified elements. -/
inductive PyVal where
  | scalar (s : Str)
  | seq (xs : List Str)
  deriving DecidableEq

/-- How `PickRecord.update` renders a map value into an attribute string:
`VM.join([str(x) for x in v])` for sequences, `str(v)` otherwise. -/
def renderVal : PyVal → Str
  | .scalar s => s
  | .seq xs => pyJoin VM xs

inductive PyErr where
  | valueError
  | indexError
  deriving DecidableEq

/-- Python list-index normalization: negative indices wrap from the end. -/
def pyIndex (len : Nat) (i : Int) : Int :=
  if i < 0 then i + len else i

/-- Python `attrs[idx] = v` on a list: negative indices wrap from the end,
out-of-range indices raise `IndexError` (modelled as `none`). -/
def pySetItem (l : List Str) (i : Int) (v : Str) : Option (List Str) :=
  if 0 ≤ pyIndex l.length i ∧ pyIndex l.length i < (l.length : Int) then
    some (l.set (pyIndex l.length i).toNat v)
  else none

/-- The `for k, v in attribute_map.items(): attrs[k - 1] = ...` loop. -/
def applyMap : List (Int × PyVal) → List Str → Option (List Str)
  | [], attrs => some attrs
  | (k, v) :: rest, attrs =>
    match pySetItem attrs (k - 1) (renderVal v) with
    | some attrs2 => applyMap rest attrs2
    | none => none

/-- Python `max((k for k in attribute_map), default=0)`. -/
def maxKey (amap : List (Int × PyVal)) : Int :=
  match amap.map (fun kv => kv.1) with
  | [] => 0
  | k :: ks => ks.foldl max k

/-- Step 2 of `PickRecord.update`: the attribute list extended with empty
strings up to the largest requested position. -/
def paddedAttrs (pr : PickRecord) (amap : List (Int × PyVal)) : List Str :=
  if maxKey amap > (pr.attributes.length : Int) then
    pr.attributes ++ List.replicate (maxKey amap - pr.attributes.length).toNat []
  else pr.attributes

/-- Steps 2-4 of `PickRecord.update`: pad the attribute list with empty
strings up to the largest requested position, apply the map, and rejoin
with the Attribute Mark.  `none` models an `IndexError` escaping. -/
def buildNewRaw (pr : PickRecord) (amap : List (Int × PyVal)) : Option Str :=
  (applyMap amap (paddedAttrs pr amap)).map (pyJoin AM)

/-- The per-line match test of the rewrite loop of `PickRecord.update`:
`line.strip().startswith(f"{self.record_key}{AM}")` (no emptiness test). -/
def updLineHit (key : Str) (line : Str) : Bool :=
  (key ++ [AM]).isPrefixOf (pyStrip line)

/-- The rewrite loop of `PickRecord.update`: every matching line is
replaced by `newLine`, every other line is written back unchanged. -/
def rewriteStore (key : Str) (newLine : Str) (store : List Str) : List Str :=
  store.map (fun line => if updLineHit key line then newLine else line)

/-- Result of a successful `PickRecord.update`: the mutated in-memory
record, the rewritten store, and the `.bak` backup contents. -/
structure UpdateResult where
  record : PickRecord
  store : List Str
  bak : List Str
  deriving DecidableEq

/-- `PickRecord.update(attribute_map)` against a present backing store.
`ValueError` is raised on a falsy key; the backup is taken before the
rewrite; the in-memory `raw_data`/`attributes` are refreshed at the end
(`attributes = new_raw.split(AM)`, with no truthiness test this time). -/
def update (pr : PickRecord) (amap : List (Int × PyVal)) (store : List Str) :
    Except PyErr UpdateResult :=
  if pr.record_key = [] then .error .valueError
  else
    match buildNewRaw pr amap with
    | none => .error .indexError
    | some new_raw =>
      let updated_line := pr.record_key ++ AM :: new_raw
      .ok { record := { pr with raw_data := some new_raw
                                attributes := new_raw.splitOn AM }
            store := rewriteStore pr.record_key updated_line store
            bak := store }

/-!  The `to_json` projection. -/

/-- Rendering oracles for the two coercions of `to_json`.
`decimalNum b = some r` models `str(Decimal(b)) == r`; `none` models
`Decimal(b)` raising `InvalidOperation`.  `isoDate d = some r` models
`str(datetime.strptime(d, "%Y-%m-%d").date()) == r`; `none` models a
`ValueError`. -/
structure ParseOracles where
  decimalNum : Str → Option Str
  isoDate : Str → Option Str

/-- One element of `parsed_balances`/`parsed_dates`, already in its final
`str(...)` form: the parsed object's rendering when the flag is set and
the coercion succeeded, the original string otherwise. -/
def parsedEntry (flag : Bool) (oracle : Str → Option Str) (s : Str) : Str :=
  if flag then (oracle s).getD s else s

/-- The `balances` list of `to_json`: attribute 2 split on the Value Mark
with empty entries discarded. -/
def balancesOf (pr : PickRecord) : List Str :=
  let balances_raw := extract pr 2 none none
  (if balances_raw = [] then [] else balances_raw.splitOn VM).filter
    (fun b => b ≠ [])

/-- The `dates` list of `to_json`: attribute 3 split on the Value Mark
with empty entries discarded. -/
def datesOf (pr : PickRecord) : List Str :=
  let dates_raw := extract pr 3 none none
  (if dates_raw = [] then [] else dates_raw.splitOn VM).filter
    (fun d => d ≠ [])

/-- `parsed_balances`, element-wise in final string form. -/
def parsedBalancesOf (oracles : ParseOracles) (pr : PickRecord)
    (parse_numbers : Bool) : List Str :=
  (balancesOf pr).map (parsedEntry parse_numbers oracles.decimalNum)

/-- `parsed_dates`, element-wise in final string form. -/
def parsedDatesOf (oracles : ParseOracles) (pr : PickRecord)
    (parse_dates : Bool) : List Str :=
  (datesOf pr).map (parsedEntry parse_dates oracles.isoDate)

/-- An entry of the intermediate `transactions` list: the `amount` and
`date` keys are set only when the corresponding list reaches index `i`. -/
structure Tx where
  amount : Option Str
  date : Option Str
  deriving DecidableEq

/-- An entry of the output `transactions` field: both keys are always
present, each rendered through `str(t.get(...))`. -/
structure TxOut where
  amount : Str
  date : Str
  deriving DecidableEq

/-- Python `str` applied to `t.get(...)`: `str(None) == "None"`. -/
def pyStrOfGet : Option Str → Str
  | none => "None".toList
  | some s => s

/-- The JSON dictionary returned by `to_json` (`current_balance` is
`Option Str` because the code emits `None` for it when no balance
exists). -/
structure Projection where
  client_id : Str
  client_name : Str
  current_balance : Option Str
  legacy_balances_history : List Str
  transaction_dates : List Str
  transactions : List TxOut
  data_source : Str
  deriving DecidableEq

/-- `PickRecord.to_json(parse_numbers, parse_dates, latest_balance)`. -/
def to_json (oracles : ParseOracles) (pr : PickRecord)
    (parse_numbers parse_dates : Bool) (latest_balance : Str) :
    Option Projection :=
  match pr.raw_data with
  | none => none
  | some r =>
    if r = [] then none
    else
      let parsed_balances := parsedBalancesOf oracles pr parse_numbers
      let parsed_dates := parsedDatesOf oracles pr parse_dates
      let len := max parsed_balances.length parsed_dates.length
      let transactions := (List.range len).map (fun i =>
        ({ amount := parsed_balances[i]?, date := parsed_dates[i]? } : Tx))
      let current_balance : Option Str :=
        if parsed_balances ≠ [] then
          some (if latest_balance = "first".toList
                then parsed_balances.headD []
                else parsed_balances.getLastD [])
        else none
      some
        { client_id := pr.record_key
          client_name := extract pr 1 none none
          current_balance := current_balance
          legacy_balances_history := parsed_balances
          transaction_dates := parsed_dates
          transactions := transactions.map (fun t =>
            { amount := pyStrOfGet t.amount, date := pyStrOfGet t.date })
          data_source :=
            "Simulated Universe/Pick Flat File".toList }

/-!  The two legacy endpoints of `app.py`. -/

/-- Result of `GET /get_legacy_client/<client_id>`. -/
inductive GetResp where
  | ok (body : Option Projection)
  | notFound
  deriving DecidableEq

/-- `get_legacy_client`: read, then project when `raw_data` is truthy,
else answer with the 404 handler. -/
def get_legacy_client (oracles : ParseOracles) (store : Option (List Str))
    (client_id : Str) (parse_numbers parse_dates : Bool) (latest : Str) :
    GetResp :=
  let client_record := read client_id store
  match client_record.raw_data with
  | some r =>
    if r = [] then .notFound
    else .ok (to_json oracles client_record parse_numbers parse_dates latest)
  | none => .notFound

/-- Python `int(s)` on a string: optional surrounding whitespace, optional
sign, then ASCII digits with single underscores allowed between digits. -/
def pyIntDigits : List Char → Nat → Option Nat
  | [], acc => some acc
  | '_' :: c :: rest, acc =>
    if c.isDigit then pyIntDigits rest (acc * 10 + (c.toNat - 48)) else none
  | ['_'], _ => none
  | c :: rest, acc =>
    if c.isDigit then pyIntDigits rest (acc * 10 + (c.toNat - 48)) else none

/-- Digit run of `int(s)`: must start with a digit. -/
def pyIntNat : List Char → Option Nat
  | [] => none
  | c :: rest =>
    if c.isDigit then pyIntDigits rest (c.toNat - 48) else none

/-- Python `int(s)`; `none` models a `ValueError`. -/
def pyInt? (s : Str) : Option Int :=
  match pyStrip s with
  | '+' :: rest => (pyIntNat rest).map (fun n => (n : Int))
  | '-' :: rest => (pyIntNat rest).map (fun n => -(n : Int))
  | t => (pyIntNat t).map (fun n => (n : Int))

/-- The key-validation loop of `update_legacy_client`: build `attr_map`
entry by entry, stopping at the first key `int()` refuses. -/
def validateKeys : List (Str × PyVal) → Except Str (List (Int × PyVal))
  | [] => .ok []
  | (k, v) :: rest =>
    match pyInt? k with
    | some pos =>
      match validateKeys rest with
      | .ok m => .ok ((pos, v) :: m)
      | .error e => .error e
    | none => .error k

/-- Response of `POST /update_legacy_client/<client_id>`. -/
inductive UpdResp where
  | missingBody
  | notFound
  | invalidKey (k : Str)
  | success
  | serverError
  deriving DecidableEq

/-- Outcome of the update endpoint: the HTTP-level response, the backing
store afterwards, and whether `record.update` was reached. -/
structure UpdOutcome where
  resp : UpdResp
  store : Option (List Str)
  updateCalled : Bool
  deriving DecidableEq

/-- `update_legacy_client`: reject a missing/empty body, read the record,
404 on falsy `raw_data`, validate the keys with `int()`, then run
`update`; an exception out of `update` becomes a 500 with the store left
as it was. -/
def update_legacy_client (store : Option (List Str))
    (client_id : Str) (body : Option (List (Str × PyVal))) : UpdOutcome :=
  match body with
  | none => { resp := .missingBody, store := store, updateCalled := false }
  | some data =>
    if data = [] then
      { resp := .missingBody, store := store, updateCalled := false }
    else
      let record := read client_id store
      match record.raw_data with
      | none => { resp := .notFound, store := store, updateCalled := false }
      | some r =>
        if r = [] then
          { resp := .notFound, store := store, updateCalled := false }
        else
          match validateKeys data with
          | .error k =>
            { resp := .invalidKey k, store := store, updateCalled := false }
          | .ok amap =>
            match store with
            | none =>
              -- unreachable: a found record implies a present store;
              -- kept for the shape of the `except` fallback (HTTP 500)
              { resp := .serverError, store := store, updateCalled := true }
            | some lines =>
              match update record amap lines with
              | .ok res =>
                { resp := .success, store := some res.store
                  updateCalled := true }
              | .error _ =>
                { resp := .serverError, store := some lines
                  updateCalled := true }

/-!  ### Helper notions: clean string ends -/

/-- The first character (if any) is not Python whitespace. -/
def headClean (s : Str) : Bool :=
  match s.head? with
  | none => true
  | some c => !isPySpace c

/-- The last character (if any) is not Python whitespace. -/
def endsClean (s : Str) : Bool :=
  match s.getLast? with
  | none => true
  | some c => !isPySpace c

/-- The full whitespace set of Python `str.strip()` (`Py_UNICODE_ISSPACE`):
ASCII whitespace, the C1 separators, NEL, NBSP, and the Unicode space
separators.  Needed because a value whose last character is any of
these is trimmed away again when the rewritten line is re-read. -/
def pyUnicodeSpace (c : Char) : Bool :=
  (9 ≤ c.toNat && c.toNat ≤ 13) || (28 ≤ c.toNat && c.toNat ≤ 32) ||
  c.toNat = 133 || c.toNat = 160 || c.toNat = 5760 ||
  (8192 ≤ c.toNat && c.toNat ≤ 8202) || c.toNat = 8232 ||
  c.toNat = 8233 || c.toNat = 8239 || c.toNat = 8287 || c.toNat = 12288

/-- A string acceptable as an update value for the round-trip property:
no Attribute Mark (it would be consumed as a field separator), no line
feed and no carriage return (both act as line terminators when Python
re-reads the file with universal newlines), and a last character that
is not Python whitespace (it would be stripped on re-read). -/
def cleanStr (s : Str) : Bool :=
  !s.contains AM && !s.contains '\n' && !s.contains '\r' &&
  (match s.getLast? with
   | none => true
   | some c => !pyUnicodeSpace c)

/-- Side condition on an update-map value under which the round-trip
property holds. -/
def validVal : PyVal → Bool
  | .scalar s => cleanStr s
  | .seq xs => xs.all cleanStr

/-!  ### Lemmas about the string model -/

lemma headClean_iff {s : Str} :
    headClean s = true ↔ ∀ c, s.head? = some c → isPySpace c = false := by
  cases hs : s.head? with
  | none => simp [headClean, hs]
  | some c => simp [headClean, hs]

lemma endsClean_iff {s : Str} :
    endsClean s = true ↔ ∀ c, s.getLast? = some c → isPySpace c = false := by
  cases hs : s.getLast? with
  | none => simp [endsClean, hs]
  | some c => simp [endsClean, hs]

lemma pyStrip_eq_self {s : Str} (h1 : headClean s = true)
    (h2 : endsClean s = true) : pyStrip s = s := by
  unfold pyStrip
  have hd : s.dropWhile isPySpace = s := by
    rw [List.dropWhile_eq_self_iff]
    intro hl
    cases s with
    | nil => simp at hl
    | cons c cs =>
      rw [headClean_iff] at h1
      simpa [List.get] using h1 c rfl
  rw [hd, List.rdropWhile_eq_self_iff]
  intro hl
  rw [endsClean_iff] at h2
  simpa using h2 (s.getLast hl) (List.getLast?_eq_getLast s hl)

lemma headClean_pyStrip (s : Str) : headClean (pyStrip s) = true := by
  rw [headClean_iff]
  intro c hc
  have hpre : pyStrip s <+: s.dropWhile isPySpace :=
    List.rdropWhile_prefix _ _
  obtain ⟨t, ht⟩ := hpre
  cases hps : pyStrip s with
  | nil => rw [hps] at hc; simp at hc
  | cons x xs =>
    rw [hps] at hc ht
    have hcx : c = x := by simpa using hc.symm
    have ht2 : s.dropWhile isPySpace = x :: (xs ++ t) := by
      rw [← ht]; simp
    have hne : s.dropWhile isPySpace ≠ [] := by rw [ht2]; simp
    have hh := List.head_dropWhile_not isPySpace s hne
    have hhead : (s.dropWhile isPySpace).head hne = x := by
      rw [List.head_eq_iff_head?_eq_some, ht2]
      rfl
    rw [hhead] at hh
    rw [hcx]
    exact hh

lemma endsClean_pyStrip (s : Str) : endsClean (pyStrip s) = true := by
  rw [endsClean_iff]
  intro c hc
  have hne : pyStrip s ≠ [] := by
    intro hn; rw [hn] at hc; simp at hc
  have h2 := List.rdropWhile_last_not isPySpace (s.dropWhile isPySpace) hne
  rw [List.getLast?_eq_getLast _ hne, Option.some_inj] at hc
  rw [← hc]
  simpa using h2

/-!  pyJoin lemmas -/

lemma pyJoin_cons_cons (sep : Char) (a b : Str) (t : List Str) :
    pyJoin sep (a :: b :: t) = a ++ sep :: pyJoin sep (b :: t) := rfl

lemma pyJoin_eq_intercalate (sep : Char) :
    ∀ ls : List Str, pyJoin sep ls = [sep].intercalate ls
  | [] => by simp [List.intercalate, pyJoin]
  | [a] => by simp [List.intercalate, pyJoin]
  | a :: b :: t => by
    rw [pyJoin_cons_cons, pyJoin_eq_intercalate sep (b :: t)]
    simp [List.intercalate, List.intersperse_cons_cons]

lemma splitOn_pyJoin {sep : Char} {ls : List Str} (h : ∀ l ∈ ls, sep ∉ l)
    (hne : ls ≠ []) : (pyJoin sep ls).splitOn sep = ls := by
  rw [pyJoin_eq_intercalate]
  exact List.splitOn_intercalate ls sep h hne

lemma pyJoin_splitOn (sep : Char) (s : Str) :
    pyJoin sep (s.splitOn sep) = s := by
  rw [pyJoin_eq_intercalate]
  exact List.intercalate_splitOn s sep

lemma mem_pyJoin {sep c : Char} :
    ∀ {ls : List Str}, c ∈ pyJoin sep ls → c = sep ∨ ∃ l ∈ ls, c ∈ l
  | [], h => by simp [pyJoin] at h
  | [a], h => by
    right
    exact ⟨a, by simp, by simpa [pyJoin] using h⟩
  | a :: b :: t, h => by
    rw [pyJoin_cons_cons] at h
    rcases List.mem_append.mp h with h | h
    · exact Or.inr ⟨a, by simp, h⟩
    · rcases List.mem_cons.mp h with h | h
      · exact Or.inl h
      · rcases mem_pyJoin h with h | ⟨l, hl, hc⟩
        · exact Or.inl h
        · exact Or.inr ⟨l, List.mem_cons_of_mem a hl, hc⟩

lemma pyJoin_eq_nil_iff (sep : Char) :
    ∀ {ls : List Str}, pyJoin sep ls = [] ↔ ls = [] ∨ ls = [[]]
  | [] => by simp [pyJoin]
  | [a] => by simp [pyJoin]
  | a :: b :: t => by
    rw [pyJoin_cons_cons]
    simp

lemma getLast?_pyJoin (sep : Char) :
    ∀ (ls : List Str) (e : Str), ls.getLast? = some e → e ≠ [] →
      (pyJoin sep ls).getLast? = e.getLast?
  | [], e => by simp
  | [a], e => by
    intro h he
    simp at h
    subst h
    simp [pyJoin]
  | a :: b :: t, e => by
    intro h he
    have h' : (b :: t).getLast? = some e := by
      rw [← h]
      exact (List.getLast?_append_of_ne_nil [a] (by simp)).symm
    have ih := getLast?_pyJoin sep (b :: t) e h' he
    have hne : pyJoin sep (b :: t) ≠ [] := by
      intro hn
      rw [hn] at ih
      rw [List.getLast?_eq_getLast e he] at ih
      simp at ih
    rw [pyJoin_cons_cons]
    rw [List.getLast?_append_of_ne_nil a (by simp)]
    rw [show sep :: pyJoin sep (b :: t) = [sep] ++ pyJoin sep (b :: t) from rfl]
    rw [List.getLast?_append_of_ne_nil [sep] hne]
    exact ih

lemma endsClean_pyJoin {sep : Char} (hsep : isPySpace sep = false) :
    ∀ (ls : List Str), (∀ e, ls.getLast? = some e → endsClean e = true) →
      endsClean (pyJoin sep ls) = true
  | [], _ => rfl
  | [a], h => by simpa [pyJoin] using h a (by simp)
  | a :: b :: t, h => by
    rw [pyJoin_cons_cons, endsClean_iff]
    intro c hc
    rw [List.getLast?_append_of_ne_nil a (by simp)] at hc
    by_cases hx : pyJoin sep (b :: t) = []
    · rw [hx] at hc
      simp at hc
      rw [← hc]
      exact hsep
    · rw [show sep :: pyJoin sep (b :: t) = [sep] ++ pyJoin sep (b :: t) from rfl,
        List.getLast?_append_of_ne_nil [sep] hx] at hc
      have ih := endsClean_pyJoin hsep (b :: t) (fun e hyp => h e (by
        rw [← hyp]
        exact (List.getLast?_append_of_ne_nil [a] (by simp))))
      rw [endsClean_iff] at ih
      exact ih c hc

/-!  splitOn lemmas -/

lemma sep_not_mem_of_mem_splitOnP {sep : Char} :
    ∀ {s l : Str}, l ∈ s.splitOnP (· == sep) → sep ∉ l
  | [], l, h => by
    simp [List.splitOnP_nil] at h
    simp [h]
  | a :: as, l, h => by
    rw [List.splitOnP_cons] at h
    by_cases ha : a = sep
    · rw [if_pos (by simp [ha])] at h
      rcases List.mem_cons.mp h with h | h
      · simp [h]
      · exact sep_not_mem_of_mem_splitOnP h
    · rw [if_neg (by simp [ha])] at h
      cases hsp : as.splitOnP (· == sep) with
      | nil => exact absurd hsp (List.splitOnP_ne_nil _ as)
      | cons x xs =>
        rw [hsp] at h
        simp only [List.modifyHead] at h
        rcases List.mem_cons.mp h with h | h
        · subst h
          intro hmem
          rcases List.mem_cons.mp hmem with hmem | hmem
          · exact ha hmem.symm
          · exact sep_not_mem_of_mem_splitOnP (s := as)
              (by rw [hsp]; exact List.mem_cons_self x xs) hmem
        · exact sep_not_mem_of_mem_splitOnP (s := as)
            (by rw [hsp]; exact List.mem_cons_of_mem x h)

lemma sep_not_mem_of_mem_splitOn {sep : Char} {s l : Str}
    (h : l ∈ s.splitOn sep) : sep ∉ l :=
  sep_not_mem_of_mem_splitOnP (by simpa [List.splitOn] using h)

lemma endsClean_getLast_splitOn {sep : Char} {s e : Str}
    (hsep : isPySpace sep = false) (hs : endsClean s = true)
    (he : (s.splitOn sep).getLast? = some e) : endsClean e = true := by
  by_cases hene : e = []
  · subst hene; rfl
  · have hjoin := getLast?_pyJoin sep (s.splitOn sep) e he hene
    rw [pyJoin_splitOn] at hjoin
    rw [endsClean_iff] at hs ⊢
    intro c hc
    exact hs c (by rw [hjoin]; exact hc)

/-!  afterFirst and line-hit lemmas -/

lemma afterFirst_append_cons {c : Char} :
    ∀ {u : Str} (v : Str), c ∉ u → afterFirst c (u ++ c :: v) = v
  | [], v, _ => by simp [afterFirst]
  | x :: xs, v, h => by
    have hx : ¬(x = c) := fun hh => h (hh ▸ List.mem_cons_self x xs)
    simp only [List.cons_append, afterFirst, if_neg hx]
    exact afterFirst_append_cons v (fun hm => h (List.mem_cons_of_mem x hm))

lemma readLineHit_eq_updLineHit (key line : Str) :
    readLineHit key line = updLineHit key line := by
  unfold readLineHit updLineHit
  cases h : pyStrip line with
  | nil =>
    cases hk : key ++ [AM] with
    | nil => exact absurd hk (by simp)
    | cons c cs => simp [List.isPrefixOf]
  | cons c cs => simp

lemma readLines_eq_find? (key : Str) : ∀ lines : List Str,
    readLines key lines =
      match lines.find? (readLineHit key) with
      | some l => mkPickRecord key (some (afterFirst AM (pyStrip l)))
      | none => mkPickRecord key none
  | [] => rfl
  | line :: rest => by
    by_cases h : readLineHit key line
    · rw [List.find?_cons_of_pos rest h]
      simp [readLines, h]
    · rw [List.find?_cons_of_neg rest h]
      have hr : readLines key (line :: rest) = readLines key rest := by
        simp [readLines, h]
      rw [hr]
      exact readLines_eq_find? key rest

/-!  ### The update pipeline, unfolded -/

lemma foldl_max_mem : ∀ (ks : List Int) (k : Int), ks.foldl max k ∈ k :: ks
  | [], k => by simp
  | k2 :: ks, k => by
    have ih := foldl_max_mem ks (max k k2)
    rcases List.mem_cons.mp ih with h | h
    · rcases max_choice k k2 with hm | hm <;> rw [List.foldl_cons, h, hm] <;> simp
    · exact List.mem_cons_of_mem _ (List.mem_cons_of_mem _ h)

lemma le_foldl_max_init : ∀ (ks : List Int) (k : Int), k ≤ ks.foldl max k
  | [], k => le_refl k
  | k2 :: ks, k => le_trans (le_max_left k k2) (le_foldl_max_init ks (max k k2))

lemma le_foldl_max : ∀ (ks : List Int) (k j : Int), j ∈ k :: ks → j ≤ ks.foldl max k
  | [], k, j, h => by
    simp at h
    simp [h]
  | k2 :: ks, k, j, h => by
    rw [List.foldl_cons]
    rcases List.mem_cons.mp h with rfl | h2
    · exact le_trans (le_max_left j k2) (le_foldl_max_init ks (max j k2))
    · rcases List.mem_cons.mp h2 with rfl | h3
      · exact le_trans (le_max_right k j) (le_foldl_max_init ks (max k j))
      · exact le_foldl_max ks (max k k2) j (List.mem_cons_of_mem _ h3)

lemma maxKey_mem {amap : List (Int × PyVal)} (h : amap ≠ []) :
    maxKey amap ∈ amap.map (fun kv => kv.1) := by
  unfold maxKey
  cases hm : amap.map (fun kv => kv.1) with
  | nil => exact absurd (List.map_eq_nil_iff.mp hm) h
  | cons k ks => exact foldl_max_mem ks k

lemma le_maxKey {amap : List (Int × PyVal)} {kv : Int × PyVal}
    (h : kv ∈ amap) : kv.1 ≤ maxKey amap := by
  unfold maxKey
  cases hm : amap.map (fun kv => kv.1) with
  | nil => exact absurd (List.map_eq_nil_iff.mp hm) (by intro hn; rw [hn] at h; simp at h)
  | cons k ks =>
    refine le_foldl_max ks k kv.1 ?_
    rw [← hm]
    exact List.mem_map_of_mem _ h

lemma length_paddedAttrs (pr : PickRecord) (amap : List (Int × PyVal)) :
    ((paddedAttrs pr amap).length : Int) =
      max (pr.attributes.length : Int) (maxKey amap) := by
  unfold paddedAttrs
  by_cases h : maxKey amap > (pr.attributes.length : Int)
  · rw [if_pos h]
    simp only [List.length_append, List.length_replicate]
    omega
  · rw [if_neg h]
    omega

lemma maxKey_le_paddedLength (pr : PickRecord) (amap : List (Int × PyVal)) :
    maxKey amap ≤ ((paddedAttrs pr amap).length : Int) := by
  rw [length_paddedAttrs]; omega

lemma attributes_length_le_paddedLength (pr : PickRecord)
    (amap : List (Int × PyVal)) :
    (pr.attributes.length : Int) ≤ ((paddedAttrs pr amap).length : Int) := by
  rw [length_paddedAttrs]; omega

lemma mem_paddedAttrs {pr : PickRecord} {amap : List (Int × PyVal)} {x : Str}
    (h : x ∈ paddedAttrs pr amap) : x ∈ pr.attributes ∨ x = [] := by
  unfold paddedAttrs at h
  by_cases hc : maxKey amap > (pr.attributes.length : Int)
  · rw [if_pos hc] at h
    rcases List.mem_append.mp h with h | h
    · exact Or.inl h
    · exact Or.inr (List.mem_replicate.mp h).2
  · rw [if_neg hc] at h
    exact Or.inl h

/-- The in-bounds `applyMap` is a left fold of `List.set`. -/
def setFold (amap : List (Int × PyVal)) (attrs : List Str) : List Str :=
  amap.foldl (fun acc kv => acc.set (kv.1 - 1).toNat (renderVal kv.2)) attrs

lemma applyMap_eq_setFold :
    ∀ {amap : List (Int × PyVal)} {attrs : List Str},
      (∀ kv ∈ amap, 1 ≤ kv.1 ∧ kv.1 ≤ (attrs.length : Int)) →
      applyMap amap attrs = some (setFold amap attrs)
  | [], attrs, _ => rfl
  | (k, v) :: rest, attrs, h => by
    have h1 : 1 ≤ k := (h (k, v) (List.mem_cons_self _ _)).1
    have h2 : k ≤ (attrs.length : Int) := (h (k, v) (List.mem_cons_self _ _)).2
    have hidx : pyIndex attrs.length (k - 1) = k - 1 := if_neg (by omega)
    have hset : pySetItem attrs (k - 1) (renderVal v) =
        some (attrs.set (k - 1).toNat (renderVal v)) := by
      unfold pySetItem
      rw [hidx, if_pos (by omega)]
    have hstep : applyMap ((k, v) :: rest) attrs =
        applyMap rest (attrs.set (k - 1).toNat (renderVal v)) := by
      show (match pySetItem attrs (k - 1) (renderVal v) with
            | some attrs2 => applyMap rest attrs2
            | none => none) = _
      rw [hset]
    have hrest : ∀ kv ∈ rest, 1 ≤ kv.1 ∧
        kv.1 ≤ ((attrs.set (k - 1).toNat (renderVal v)).length : Int) := by
      intro kv hkv
      rw [List.length_set]
      exact h kv (List.mem_cons_of_mem _ hkv)
    rw [hstep, applyMap_eq_setFold hrest]
    rfl

lemma length_setFold :
    ∀ (amap : List (Int × PyVal)) (attrs : List Str),
      (setFold amap attrs).length = attrs.length
  | [], _ => rfl
  | (k, v) :: rest, attrs => by
    unfold setFold
    rw [List.foldl_cons]
    have := length_setFold rest (attrs.set (k - 1).toNat (renderVal v))
    unfold setFold at this
    rw [this, List.length_set]

lemma setFold_getElem?_untouched :
    ∀ (amap : List (Int × PyVal)) (attrs : List Str) {i : Nat},
      (∀ kv ∈ amap, (kv.1 - 1).toNat ≠ i) →
      (setFold amap attrs)[i]? = attrs[i]?
  | [], _, _, _ => rfl
  | (k, v) :: rest, attrs, i, h => by
    unfold setFold
    rw [List.foldl_cons]
    have ih := setFold_getElem?_untouched
      rest (attrs.set (k - 1).toNat (renderVal v)) (i := i)
      (fun kv hkv => h kv (List.mem_cons_of_mem _ hkv))
    unfold setFold at ih
    rw [ih]
    exact List.getElem?_set_ne (h (k, v) (List.mem_cons_self _ _))

lemma setFold_getElem?_touched :
    ∀ (amap : List (Int × PyVal)) (attrs : List Str) {k : Int} {v : PyVal},
      (k, v) ∈ amap →
      (amap.map (fun kv => kv.1)).Nodup →
      (∀ kv ∈ amap, 1 ≤ kv.1 ∧ kv.1 ≤ (attrs.length : Int)) →
      (setFold amap attrs)[(k - 1).toNat]? = some (renderVal v)
  | (k0, v0) :: rest, attrs, k, v, hmem, hnodup, hb => by
    rcases List.mem_cons.mp hmem with heq | hmem2
    · injection heq with hk hv
      subst hk
      subst hv
      unfold setFold
      rw [List.foldl_cons]
      have huntouched : ∀ kv ∈ rest, (kv.1 - 1).toNat ≠ (k - 1).toNat := by
        intro kv hkv
        have hnd : k ∉ rest.map (fun kv => kv.1) := by
          have h2 := hnodup
          rw [List.map_cons, List.nodup_cons] at h2
          exact h2.1
        have hne : kv.1 ≠ k := by
          intro hkk
          exact hnd (hkk ▸ List.mem_map_of_mem _ hkv)
        have ha : 1 ≤ kv.1 := (hb kv (List.mem_cons_of_mem _ hkv)).1
        have hc : 1 ≤ k := (hb (k, v) (List.mem_cons_self _ _)).1
        omega
      have := setFold_getElem?_untouched
        rest (attrs.set (k - 1).toNat (renderVal v)) huntouched
      unfold setFold at this
      rw [this]
      refine List.getElem?_set_self ?_
      have hc1 : 1 ≤ k := (hb (k, v) (List.mem_cons_self _ _)).1
      have hc2 : k ≤ (attrs.length : Int) := (hb (k, v) (List.mem_cons_self _ _)).2
      omega
    · unfold setFold
      rw [List.foldl_cons]
      have hnd2 : (rest.map (fun kv => kv.1)).Nodup := by
        have h2 := hnodup
        rw [List.map_cons, List.nodup_cons] at h2
        exact h2.2
      have ih := setFold_getElem?_touched
        rest (attrs.set (k0 - 1).toNat (renderVal v0))
        hmem2 hnd2
        (by
          intro kv hkv
          rw [List.length_set]
          exact hb kv (List.mem_cons_of_mem _ hkv))
      unfold setFold at ih
      exact ih

lemma mem_setFold :
    ∀ (amap : List (Int × PyVal)) (attrs : List Str) {x : Str},
      x ∈ setFold amap attrs →
      x ∈ attrs ∨ ∃ kv ∈ amap, x = renderVal kv.2
  | [], _, x, h => Or.inl h
  | (k, v) :: rest, attrs, x, h => by
    unfold setFold at h
    rw [List.foldl_cons] at h
    rcases mem_setFold rest _ h with h2 | ⟨kv, hkv, hx⟩
    · rcases List.mem_or_eq_of_mem_set h2 with h3 | h3
      · exact Or.inl h3
      · exact Or.inr ⟨(k, v), List.mem_cons_self _ _, h3⟩
    · exact Or.inr ⟨kv, List.mem_cons_of_mem _ hkv, hx⟩

lemma buildNewRaw_eq {pr : PickRecord} {amap : List (Int × PyVal)}
    (hkeys : ∀ kv ∈ amap, 1 ≤ kv.1) :
    buildNewRaw pr amap = some (pyJoin AM (setFold amap (paddedAttrs pr amap))) := by
  unfold buildNewRaw
  rw [applyMap_eq_setFold (fun kv hkv =>
    ⟨hkeys kv hkv, le_trans (le_maxKey hkv) (maxKey_le_paddedLength pr amap)⟩)]
  rfl

lemma update_eq_ok {pr : PickRecord} {amap : List (Int × PyVal)} {nr : Str}
    (store : List Str) (hkey : pr.record_key ≠ [])
    (hnr : buildNewRaw pr amap = some nr) :
    update pr amap store = .ok
      { record := { pr with raw_data := some nr, attributes := nr.splitOn AM }
        store := rewriteStore pr.record_key (pr.record_key ++ AM :: nr) store
        bak := store } := by
  unfold update
  rw [if_neg hkey, hnr]

lemma update_ok_inv {pr : PickRecord} {amap : List (Int × PyVal)}
    {store : List Str} {res : UpdateResult}
    (h : update pr amap store = .ok res) :
    pr.record_key ≠ [] ∧ ∃ nr, buildNewRaw pr amap = some nr ∧
      res = { record := { pr with raw_data := some nr
                                  attributes := nr.splitOn AM }
              store := rewriteStore pr.record_key (pr.record_key ++ AM :: nr) store
              bak := store } := by
  unfold update at h
  by_cases hkey : pr.record_key = []
  · rw [if_pos hkey] at h
    exact absurd h (by simp)
  · rw [if_neg hkey] at h
    cases hnr : buildNewRaw pr amap with
    | none => rw [hnr] at h; exact absurd h (by simp)
    | some nr =>
      rw [hnr] at h
      simp only [Except.ok.injEq] at h
      exact ⟨hkey, nr, rfl, h.symm⟩

/-!  ### Statement helpers -/

/-- Oracle pair for which every coercion fails, so every string is kept
verbatim (a legitimate instantiation: e.g. no balance/date parses). -/
def noParse : ParseOracles :=
  { decimalNum := fun _ => none, isoDate := fun _ => none }

/-- The attribute selected by a 1-based position, `[]` when out of range
(statement helper mirroring the bound checks of `extract`). -/
def attrAt (pr : PickRecord) (apos : Int) : Str :=
  if 0 ≤ apos - 1 ∧ apos - 1 < (pr.attributes.length : Int) then
    pr.attributes.getD (apos - 1).toNat []
  else []

/-- The value selected by 1-based attribute/value positions, `[]` when
out of range (statement helper). -/
def valAt (pr : PickRecord) (apos vpos : Int) : Str :=
  if 0 ≤ vpos - 1 ∧ vpos - 1 < (((attrAt pr apos).splitOn VM).length : Int) then
    ((attrAt pr apos).splitOn VM).getD (vpos - 1).toNat []
  else []

/-!  ### Claim theorems -/

/-- C1: the claim says a projected transaction entry carries an `amount`
field only when a balance exists at that index and a `date` field only
when a date exists there, with no null placeholders.  The code's output
stage applies `str(t.get(...))` to every entry, so a record with three
balances and two dates yields a third transaction whose `date` field is
present and holds the placeholder string `"None"` — the conditional
construction of the intermediate list (source lines 117-126) shows the
claimed behaviour is the intent, and the output stage defeats it. -/
theorem C1_transactions_padded_with_placeholder :
    (to_json noParse
        (mkPickRecord ("105".toList)
          (some ("N^10]20]30^2024-01-01]2024-01-02".toList)))
        true true ("last".toList)).map
      (fun p => p.transactions.map (fun t => (t.amount, t.date)))
    = some [("10".toList, "2024-01-01".toList),
            ("20".toList, "2024-01-02".toList),
            ("30".toList, "None".toList)] := by decide

/-- C4 counterexample: the claim says a `valuePos ≤ 0` yields the empty
string, but `value_pos = 0` is falsy in Python, so `extract(1, 0)` on a
record whose first attribute is `"Name"` returns `"Name"`, not `""`. -/
theorem C4_counterexample :
    extract (mkPickRecord ("k".toList) (some ("Name".toList))) 1 (some 0) none
      = "Name".toList ∧ ("Name".toList : Str) ≠ [] := by decide

/-- C4 (amended): extract is total and returns `[]` for an attribute
position that is ≤ 0 or beyond the attribute count; a value/subvalue
position of exactly 0 is treated as "not specified" (the whole
attribute resp. value is returned); a negative or beyond-count
value/subvalue position yields `[]`. -/
theorem C4_extract_bounds (pr : PickRecord) (a v s : Int)
    (vo so : Option Int) :
    ((a ≤ 0 ∨ (pr.attributes.length : Int) < a) → extract pr a vo so = []) ∧
    (extract pr a (some 0) so = extract pr a none none) ∧
    (extract pr a vo (some 0) = extract pr a vo none) ∧
    (v < 0 → extract pr a (some v) so = []) ∧
    ((((attrAt pr a).splitOn VM).length : Int) < v →
      extract pr a (some v) so = []) ∧
    (0 < v → s < 0 → extract pr a (some v) (some s) = []) ∧
    (0 < v → (((valAt pr a v).splitOn SM).length : Int) < s →
      extract pr a (some v) (some s) = []) := by
  by_cases hin : 0 ≤ a - 1 ∧ a - 1 < (pr.attributes.length : Int)
  case neg =>
    have hout : ∀ vo2 so2, extract pr a vo2 so2 = [] := by
      intro vo2 so2
      simp only [extract]
      rw [if_neg hin]
    simp [hout]
  case pos =>
    have hattrAt : attrAt pr a = pr.attributes.getD (a - 1).toNat [] := by
      unfold attrAt
      rw [if_pos hin]
    by_cases hattr : pr.attributes.getD (a - 1).toNat [] = []
    case pos =>
      have hempty : ∀ vo2 so2, extract pr a vo2 so2 = [] := by
        intro vo2 so2
        simp only [extract]
        rw [if_pos hin, if_pos hattr]
      simp [hempty]
    case neg =>
      have hbody : ∀ vo2 so2, extract pr a vo2 so2 =
          (if pyTruthy vo2 then
            (if 0 ≤ vo2.getD 0 - 1 ∧
                vo2.getD 0 - 1 <
                  (((pr.attributes.getD (a - 1).toNat []).splitOn VM).length : Int)
            then
              (if pyTruthy so2 then
                (if 0 ≤ so2.getD 0 - 1 ∧
                    so2.getD 0 - 1 <
                      ((((pr.attributes.getD (a - 1).toNat []).splitOn VM).getD
                          (vo2.getD 0 - 1).toNat []).splitOn SM).length
                then (((pr.attributes.getD (a - 1).toNat []).splitOn VM).getD
                        (vo2.getD 0 - 1).toNat []).splitOn SM |>.getD
                        (so2.getD 0 - 1).toNat []
                else [])
              else ((pr.attributes.getD (a - 1).toNat []).splitOn VM).getD
                      (vo2.getD 0 - 1).toNat [])
            else [])
          else pr.attributes.getD (a - 1).toNat []) := by
        intro vo2 so2
        simp only [extract]
        rw [if_pos hin, if_neg hattr]
      refine ⟨fun h => by omega, ?_, ?_, ?_, ?_, ?_, ?_⟩
      · rw [hbody, hbody]
        simp [pyTruthy]
      · rw [hbody, hbody]
        by_cases hvo : pyTruthy vo
        · simp only [if_pos hvo]
          split
          · simp [pyTruthy]
          · rfl
        · simp only [if_neg hvo]
      · intro hv
        rw [hbody]
        have hvt : pyTruthy (some v) = true := by
          simp [pyTruthy]
          omega
        rw [if_pos hvt]
        rw [if_neg (by simp only [Option.getD]; omega)]
      · intro hv
        rw [hbody]
        by_cases hvt : pyTruthy (some v)
        · rw [if_pos hvt]
          rw [hattrAt] at hv
          rw [if_neg (by simp only [Option.getD]; omega)]
        · rw [if_neg hvt]
          have : v = 0 := by
            by_contra hv0
            exact hvt (by simp [pyTruthy, hv0])
          subst this
          rw [hattrAt] at hv
          have hlen : 1 ≤ ((pr.attributes.getD (a - 1).toNat []).splitOn VM).length :=
            List.length_pos.mpr (List.splitOnP_ne_nil _ _)
          omega
      · intro hv hs
        rw [hbody]
        have hvt : pyTruthy (some v) = true := by
          simp [pyTruthy]
          omega
        rw [if_pos hvt]
        split
        · have hst : pyTruthy (some s) = true := by
            simp [pyTruthy]
            omega
          rw [if_pos hst]
          rw [if_neg (by simp only [Option.getD]; omega)]
        · rfl
      · intro hv hs
        rw [hbody]
        have hvt : pyTruthy (some v) = true := by
          simp [pyTruthy]
          omega
        rw [if_pos hvt]
        by_cases hvin : 0 ≤ (some v : Option Int).getD 0 - 1 ∧
            (some v : Option Int).getD 0 - 1 <
              (((pr.attributes.getD (a - 1).toNat []).splitOn VM).length : Int)
        · rw [if_pos hvin]
          have hval : valAt pr a v =
              ((pr.attributes.getD (a - 1).toNat []).splitOn VM).getD
                (v - 1).toNat [] := by
            unfold valAt
            rw [hattrAt]
            rw [if_pos (by simpa using hvin)]
          rw [hval] at hs
          have hst : pyTruthy (some s) = true := by
            have hlen : 1 ≤ ((((pr.attributes.getD (a - 1).toNat []).splitOn VM).getD
                (v - 1).toNat []).splitOn SM).length :=
              List.length_pos.mpr (List.splitOnP_ne_nil _ _)
            simp [pyTruthy]
            omega
          rw [if_pos hst]
          rw [if_neg (by simp only [Option.getD]; omega)]
        · rw [if_neg hvin]

/-- C4 witness: concrete out-of-range requests all yield the empty
string, and `valuePos = 0` behaves as "not specified". -/
theorem C4_witness :
    extract (mkPickRecord ("w".toList) (some ("a]b\\c^d".toList))) 9 none none
        = [] ∧
    extract (mkPickRecord ("w".toList) (some ("a]b\\c^d".toList))) 1 (some 0)
        none
      = extract (mkPickRecord ("w".toList) (some ("a]b\\c^d".toList))) 1 none
        none ∧
    extract (mkPickRecord ("w".toList) (some ("a]b\\c^d".toList))) 1 (some (-2))
        none = [] ∧
    extract (mkPickRecord ("w".toList) (some ("a]b\\c^d".toList))) 1 (some 9)
        none = [] ∧
    extract (mkPickRecord ("w".toList) (some ("a]b\\c^d".toList))) 1 (some 2)
        (some 9) = [] :=
  have h := C4_extract_bounds
    (mkPickRecord ("w".toList) (some ("a]b\\c^d".toList)))
  ⟨(h 9 0 0 none none).1 (by decide),
   (h 1 0 0 none none).2.1,
   (h 1 (-2) 0 none none).2.2.2.1 (by decide),
   (h 1 9 0 none none).2.2.2.2.1 (by decide),
   (h 1 2 9 none none).2.2.2.2.2.2 (by decide) (by decide)⟩

/-- C5 counterexample: a record constructed with `raw_data = ""` (a
present raw string) has `attributes = []`, while `"".split(AM)` is
`[""]` in Python — the invariant fails for the empty string. -/
theorem C5_counterexample :
    (mkPickRecord ("k".toList) (some ([] : Str))).attributes = [] ∧
    (([] : Str).splitOn AM) = [[]] ∧
    ([] : List Str) ≠ [[]] := by decide

/-- C5 (amended): the invariant `attributes = raw_data.split(AM)` holds
at construction (hence after `read`) whenever `raw_data` is present and
nonempty; a record whose `raw_data` is the empty string gets `[]`
instead of `[""]` because of Python truthiness; `update` re-establishes
`attributes = new_raw.split(AM)` unconditionally. -/
theorem C5_attributes_invariant (key r : Str) (pr : PickRecord)
    (amap : List (Int × PyVal)) (store : List Str) (res : UpdateResult) :
    (r ≠ [] → (mkPickRecord key (some r)).attributes = r.splitOn AM) ∧
    ((mkPickRecord key (some r)).raw_data = some r) ∧
    ((mkPickRecord key (some [])).attributes = []) ∧
    (update pr amap store = .ok res →
      ∃ nr, res.record.raw_data = some nr ∧
        res.record.attributes = nr.splitOn AM) := by
  refine ⟨?_, rfl, rfl, ?_⟩
  · intro h
    simp [mkPickRecord, h]
  · intro h
    obtain ⟨hkey, nr, hnr, hres⟩ := update_ok_inv h
    subst hres
    exact ⟨nr, rfl, rfl⟩

/-- C5 witness: concrete nonempty raw string, and a concrete successful
update, both satisfy the invariant. -/
theorem C5_witness :
    (mkPickRecord ("k".toList) (some ("a^b".toList))).attributes
        = ("a^b".toList).splitOn AM ∧
    ∃ nr,
      (match update (mkPickRecord ("9".toList) (some ("a".toList)))
          [(1, PyVal.scalar ("z".toList))] ["9^a".toList] with
        | .ok res => res
        | .error _ => { record := mkPickRecord [] none, store := [], bak := [] }
        ).record.raw_data = some nr ∧
      (match update (mkPickRecord ("9".toList) (some ("a".toList)))
          [(1, PyVal.scalar ("z".toList))] ["9^a".toList] with
        | .ok res => res
        | .error _ => { record := mkPickRecord [] none, store := [], bak := [] }
        ).record.attributes = nr.splitOn AM :=
  have h := C5_attributes_invariant ("k".toList) ("a^b".toList)
    (mkPickRecord ("9".toList) (some ("a".toList)))
    [(1, PyVal.scalar ("z".toList))] ["9^a".toList]
    (match update (mkPickRecord ("9".toList) (some ("a".toList)))
        [(1, PyVal.scalar ("z".toList))] ["9^a".toList] with
      | .ok res => res
      | .error _ => { record := mkPickRecord [] none, store := [], bak := [] })
  ⟨h.1 (by decide), h.2.2.2 rfl⟩

/-- C7: the claim (and the code's own comment "Validate keys are
positive ints") requires non-positive keys to be rejected with a 400,
but the endpoint only checks that `int(k)` succeeds.  Key `"0"` parses,
so `update` is reached: Python position 0 becomes list index -1 and
silently overwrites the record's last attribute, answering 200. -/
theorem C7_nonpositive_key_not_rejected :
    update_legacy_client (some ["101^A^B".toList]) ("101".toList)
        (some [("0".toList, PyVal.scalar ("X".toList))])
      = { resp := .success, store := some ["101^A^X".toList]
          updateCalled := true }
    ∧ pyInt? ("0".toList) = some 0 ∧ ¬((0 : Int) > 0) := by decide

/-- C10: a record whose matching line has an empty attribute portion
(`raw_data = ""`) gets an empty attribute list from the constructor, is
projected to `None` by `to_json`, and makes the GET endpoint answer
with the 404 handler. -/
theorem C10_empty_raw_not_found (oracles : ParseOracles) (key : Str)
    (store : List Str) (pn pd : Bool) (pol : Str) :
    ((mkPickRecord key (some [])).attributes = []) ∧
    (∀ pr : PickRecord, pr.raw_data = some [] →
      to_json oracles pr pn pd pol = none) ∧
    ((read key (some store)).raw_data = some [] →
      get_legacy_client oracles (some store) key pn pd pol = .notFound) := by
  refine ⟨rfl, ?_, ?_⟩
  · intro pr h
    simp [to_json, h]
  · intro h
    simp [get_legacy_client, h]

/-- C10 witness: the store line `101^` yields `raw_data = ""` and a 404
on the GET endpoint. -/
theorem C10_witness :
    get_legacy_client noParse (some ["101^".toList]) ("101".toList)
      true true ("last".toList) = .notFound :=
  (C10_empty_raw_not_found noParse ("101".toList) ["101^".toList]
    true true ("last".toList)).2.2 (by decide)

/-- C8: the current balance of the projection is the first element of
the (empty-filtered, parsed) balance list when the policy is `"first"`
and its last element for any other policy (including the default
`"last"`); it is absent when the balance list is empty. -/
theorem C8_current_balance (oracles : ParseOracles) (pr : PickRecord)
    (pn pd : Bool) (pol : Str) (proj : Projection)
    (h : to_json oracles pr pn pd pol = some proj) :
    (parsedBalancesOf oracles pr pn = [] → proj.current_balance = none) ∧
    (parsedBalancesOf oracles pr pn ≠ [] →
      proj.current_balance =
        some (if pol = "first".toList
              then (parsedBalancesOf oracles pr pn).headD []
              else (parsedBalancesOf oracles pr pn).getLastD [])) := by
  unfold to_json at h
  cases hraw : pr.raw_data with
  | none =>
    simp only [hraw] at h
    exact absurd h (by simp)
  | some r =>
    simp only [hraw] at h
    by_cases hr : r = []
    · rw [if_pos hr] at h
      exact absurd h (by simp)
    · rw [if_neg hr] at h
      simp only [Option.some_inj] at h
      subst h
      constructor
      · intro he
        simp [he]
      · intro he
        simp [he]

/-- C8 witness: with balances `2500.00]400.00]12.50`, policy `"last"`
selects `"12.50"` (applied through the theorem at the projection the
code computes). -/
theorem C8_witness :
    (match to_json noParse
        (mkPickRecord ("101".toList)
          (some ("John^2500.00]400.00]12.50".toList)))
        true true ("last".toList) with
      | some p => p
      | none =>
        { client_id := [], client_name := [], current_balance := none
          legacy_balances_history := [], transaction_dates := []
          transactions := [], data_source := [] }).current_balance
      = some ("12.50".toList) :=
  ((C8_current_balance noParse
      (mkPickRecord ("101".toList)
        (some ("John^2500.00]400.00]12.50".toList)))
      true true ("last".toList) _ rfl).2 (by decide)).trans (by decide)

/-- C6: `read` on a missing backing store returns a record with absent
raw data and empty attributes; on a present store it returns the record
built from the first line whose trimmed content starts with
`key + AM`, with `raw_data` everything after the first Attribute Mark
(split-once: later delimiters are preserved), and a not-found record if
no line matches. -/
theorem C6_read_semantics (key l : Str) (lines : List Str) :
    (read key none = mkPickRecord key none) ∧
    ((mkPickRecord key none).raw_data = none ∧
      (mkPickRecord key none).attributes = []) ∧
    (lines.find? (readLineHit key) = none →
      read key (some lines) = mkPickRecord key none) ∧
    (lines.find? (readLineHit key) = some l →
      read key (some lines)
        = mkPickRecord key (some (afterFirst AM (pyStrip l)))) ∧
    (∀ u v : Str, AM ∉ u → afterFirst AM (u ++ AM :: v) = v) := by
  refine ⟨rfl, ⟨rfl, rfl⟩, ?_, ?_, fun u v hu => afterFirst_append_cons v hu⟩
  · intro h
    show readLines key lines = _
    rw [readLines_eq_find? key lines, h]
  · intro h
    show readLines key lines = _
    rw [readLines_eq_find? key lines, h]

/-- C6 witness: a line with surrounding whitespace is trimmed before
matching, the first matching line wins, split-once keeps the rest, a
missing store and a no-match store both give a not-found record. -/
theorem C6_witness :
    read ("101".toList) (some ["  101^A ".toList, "101^B".toList])
        = mkPickRecord ("101".toList) (some ("A".toList)) ∧
    read ("101".toList) (some ["202^B".toList])
        = mkPickRecord ("101".toList) none ∧
    read ("101".toList) none = mkPickRecord ("101".toList) none ∧
    afterFirst AM ("ke".toList ++ AM :: "a^b".toList) = "a^b".toList :=
  have h := C6_read_semantics ("101".toList) ("  101^A ".toList)
    ["  101^A ".toList, "101^B".toList]
  have h2 := C6_read_semantics ("101".toList) [] ["202^B".toList]
  ⟨(h.2.2.2.1 (by decide)).trans (by decide),
   h2.2.2.1 (by decide),
   h.1,
   h.2.2.2.2 ("ke".toList) ("a^b".toList) (by decide)⟩

/-- C2 counterexample: the claim says only the first matching line is
replaced and later duplicate-key lines are written back unchanged; with
two lines keyed `101`, an update rewrites both. -/
theorem C2_counterexample :
    (match update (read ("101".toList) (some ["101^a".toList, "101^b".toList]))
        [(1, PyVal.scalar ("X".toList))]
        ["101^a".toList, "101^b".toList] with
      | .ok res => res.store
      | .error _ => [])
      = ["101^X".toList, "101^X".toList]
    ∧ ("101^X".toList : Str) ≠ "101^b".toList := by decide

/-- C2 (amended): a successful `update` rewrites the store so that
*every* line whose trimmed content starts with `key + AM` is replaced
by the new line `key + AM + newRaw`, and every non-matching line is
written back unchanged, in the original order. -/
theorem C2_update_rewrites_all_matches (pr : PickRecord)
    (amap : List (Int × PyVal)) (store : List Str) (res : UpdateResult)
    (nr : Str) (h : update pr amap store = .ok res)
    (hnr : buildNewRaw pr amap = some nr) :
    res.store.length = store.length ∧
    ∀ i, i < store.length →
      res.store.getD i [] =
        (if updLineHit pr.record_key (store.getD i []) then
          pr.record_key ++ AM :: nr
        else store.getD i []) := by
  obtain ⟨hkey, nr2, hnr2, hres⟩ := update_ok_inv h
  rw [hnr] at hnr2
  injection hnr2 with hnr2
  subst hnr2
  subst hres
  constructor
  · simp [rewriteStore]
  · intro i hi
    rw [List.getD_eq_getElem?_getD, List.getD_eq_getElem?_getD]
    show (store.map fun line =>
      if updLineHit pr.record_key line then pr.record_key ++ AM :: nr
      else line)[i]?.getD [] = _
    rw [List.getElem?_map]
    cases hg : store[i]? with
    | none =>
      rw [List.getElem?_eq_none_iff] at hg
      omega
    | some line => simp

/-- C2 witness: concrete duplicate-key store; the second matching line
is also rewritten and a non-matching line is untouched. -/
theorem C2_witness :
    (match update (read ("7".toList) (some ["7^a".toList, "8^b".toList, "7^c".toList]))
        [(1, PyVal.scalar ("Z".toList))]
        ["7^a".toList, "8^b".toList, "7^c".toList] with
      | .ok res => res
      | .error _ =>
        { record := mkPickRecord [] none, store := [], bak := [] }).store.getD 2 []
      = "7^Z".toList :=
  have h := C2_update_rewrites_all_matches
    (read ("7".toList) (some ["7^a".toList, "8^b".toList, "7^c".toList]))
    [(1, PyVal.scalar ("Z".toList))]
    ["7^a".toList, "8^b".toList, "7^c".toList]
    (match update (read ("7".toList) (some ["7^a".toList, "8^b".toList, "7^c".toList]))
        [(1, PyVal.scalar ("Z".toList))]
        ["7^a".toList, "8^b".toList, "7^c".toList] with
      | .ok res => res
      | .error _ =>
        { record := mkPickRecord [] none, store := [], bak := [] })
    ("Z".toList) rfl (by decide)
  ((h.2 2 (by decide)).trans (by decide))

/-- C9: updating a record whose key matched no line leaves the store's
content unchanged (nothing is appended), still overwrites the backup
with a copy of the file, and sets the in-memory raw data and attributes
to the new joined values, so memory and file diverge. -/
theorem C9_update_missing_key (key : Str) (store : List Str)
    (amap : List (Int × PyVal)) (res : UpdateResult)
    (hnone : (read key (some store)).raw_data = none)
    (h : update (read key (some store)) amap store = .ok res) :
    res.store = store ∧ res.bak = store ∧
    ∃ nr, buildNewRaw (read key (some store)) amap = some nr ∧
      res.record.raw_data = some nr ∧
      res.record.attributes = nr.splitOn AM := by
  obtain ⟨hkey, nr, hnr, hres⟩ := update_ok_inv h
  subst hres
  refine ⟨?_, rfl, nr, hnr, rfl, rfl⟩
  have hfind : store.find? (readLineHit key) = none := by
    cases hf : store.find? (readLineHit key) with
    | none => rfl
    | some l =>
      have heq := readLines_eq_find? key store
      rw [hf] at heq
      rw [show read key (some store) = readLines key store from rfl, heq]
        at hnone
      simp [mkPickRecord] at hnone
  have hall := List.find?_eq_none.mp hfind
  have hrec : read key (some store) = mkPickRecord key none := by
    show readLines key store = _
    rw [readLines_eq_find? key store, hfind]
  rw [hrec]
  show rewriteStore key _ store = store
  unfold rewriteStore
  have hupd : ∀ line ∈ store,
      (if updLineHit key line then
        (mkPickRecord key none).record_key ++ AM :: nr
      else line) = line := by
    intro line hline
    rw [if_neg]
    intro hhit
    exact hall line hline (by rw [readLineHit_eq_updLineHit, hhit])
  exact (List.map_congr_left hupd).trans (List.map_id store)

/-- C9 witness: concrete store with no matching line; the file is
untouched while the in-memory record now carries the new raw data. -/
theorem C9_witness :
    (match update (read ("101".toList) (some ["200^x".toList]))
        [(1, PyVal.scalar ("A".toList))] ["200^x".toList] with
      | .ok res => res
      | .error _ =>
        { record := mkPickRecord [] none, store := [], bak := [] }).store
      = ["200^x".toList] ∧
    (match update (read ("101".toList) (some ["200^x".toList]))
        [(1, PyVal.scalar ("A".toList))] ["200^x".toList] with
      | .ok res => res
      | .error _ =>
        { record := mkPickRecord [] none, store := [], bak := [] }).bak
      = ["200^x".toList] ∧
    ∃ nr, buildNewRaw (read ("101".toList) (some ["200^x".toList]))
        [(1, PyVal.scalar ("A".toList))] = some nr ∧
      (match update (read ("101".toList) (some ["200^x".toList]))
          [(1, PyVal.scalar ("A".toList))] ["200^x".toList] with
        | .ok res => res
        | .error _ =>
          { record := mkPickRecord [] none, store := [], bak := [] }
        ).record.raw_data = some nr ∧
      (match update (read ("101".toList) (some ["200^x".toList]))
          [(1, PyVal.scalar ("A".toList))] ["200^x".toList] with
        | .ok res => res
        | .error _ =>
          { record := mkPickRecord [] none, store := [], bak := [] }
        ).record.attributes = nr.splitOn AM :=
  C9_update_missing_key ("101".toList) ["200^x".toList]
    [(1, PyVal.scalar ("A".toList))]
    (match update (read ("101".toList) (some ["200^x".toList]))
        [(1, PyVal.scalar ("A".toList))] ["200^x".toList] with
      | .ok res => res
      | .error _ =>
        { record := mkPickRecord [] none, store := [], bak := [] })
    (by decide) rfl

/-!  ### Round-trip helper lemmas -/

lemma afterFirst_suffix (c : Char) : ∀ s : Str, afterFirst c s <:+ s
  | [] => by simp [afterFirst]
  | x :: xs => by
    unfold afterFirst
    by_cases hx : x = c
    · rw [if_pos hx]
      exact List.suffix_cons x xs
    · rw [if_neg hx]
      exact (afterFirst_suffix c xs).trans (List.suffix_cons x xs)

lemma endsClean_afterFirst {c : Char} {s : Str} (h : endsClean s = true) :
    endsClean (afterFirst c s) = true := by
  rw [endsClean_iff]
  intro e he
  have hne : afterFirst c s ≠ [] := by
    intro hn; rw [hn] at he; simp at he
  obtain ⟨t, ht⟩ := afterFirst_suffix c s
  rw [endsClean_iff] at h
  apply h
  rw [← ht, List.getLast?_append_of_ne_nil t hne]
  exact he

lemma head?_eq_of_pfx {l1 l2 : Str} (h : l1 <+: l2) (hne : l1 ≠ []) :
    l2.head? = l1.head? := by
  obtain ⟨t, ht⟩ := h
  cases l1 with
  | nil => exact absurd rfl hne
  | cons a as => rw [← ht]; rfl

lemma pyUnicodeSpace_of_isPySpace {c : Char} (h : isPySpace c = true) :
    pyUnicodeSpace c = true := by
  unfold isPySpace at h
  simp only [Bool.or_eq_true, decide_eq_true_eq] at h
  rcases h with ((((h | h) | h) | h) | h) | h <;> subst h <;> decide

lemma cleanStr_parts {s : Str} (h : cleanStr s = true) :
    s.contains AM = false ∧ s.contains '\n' = false ∧
    s.contains '\r' = false ∧
    (∀ c, s.getLast? = some c → pyUnicodeSpace c = false) := by
  unfold cleanStr at h
  rw [Bool.and_eq_true, Bool.and_eq_true, Bool.and_eq_true] at h
  refine ⟨by simpa using h.1.1.1, by simpa using h.1.1.2,
    by simpa using h.1.2, ?_⟩
  intro c hc
  have h4 := h.2
  rw [hc] at h4
  simpa using h4

lemma endsClean_of_cleanStr {s : Str} (h : cleanStr s = true) :
    endsClean s = true := by
  rw [endsClean_iff]
  intro c hc
  have h4 := (cleanStr_parts h).2.2.2 c hc
  cases hps : isPySpace c with
  | false => rfl
  | true => exact absurd (pyUnicodeSpace_of_isPySpace hps) (by simp [h4])

lemma endsClean_renderVal {v : PyVal} (h : validVal v = true) :
    endsClean (renderVal v) = true := by
  cases v with
  | scalar s =>
    unfold validVal at h
    exact endsClean_of_cleanStr h
  | seq xs =>
    unfold validVal at h
    rw [List.all_eq_true] at h
    refine endsClean_pyJoin (by decide) xs ?_
    intro e he
    exact endsClean_of_cleanStr
      (h e (List.mem_of_mem_getLast? (by rw [he]; rfl)))

lemma not_mem_renderVal {v : PyVal} {c : Char} (hc : c ≠ VM)
    (h : ∀ s, (match v with
                | PyVal.scalar s2 => s = s2
                | PyVal.seq xs => s ∈ xs) → c ∉ s) :
    c ∉ renderVal v := by
  cases v with
  | scalar s => exact h s rfl
  | seq xs =>
    intro hmem
    rcases mem_pyJoin hmem with hcv | ⟨l, hl, hcl⟩
    · exact hc hcv
    · exact h l hl hcl

lemma AM_not_mem_renderVal {v : PyVal} (h : validVal v = true) :
    AM ∉ renderVal v := by
  refine not_mem_renderVal (by decide) ?_
  intro s hs
  cases v with
  | scalar s2 =>
    unfold validVal at h
    subst hs
    simpa using (cleanStr_parts h).1
  | seq xs =>
    unfold validVal at h
    rw [List.all_eq_true] at h
    simpa using (cleanStr_parts (h s hs)).1

/-- The last element of the updated attribute list has a clean end:
either a map value wrote it (values are `cleanStr`), or it is the last
original attribute, inherited from the stripped line. -/
lemma endsClean_setFold_getLast {pr : PickRecord} {amap : List (Int × PyVal)}
    (hattrs : ∀ e, pr.attributes.getLast? = some e → endsClean e = true)
    (hkeys : ∀ kv ∈ amap, 1 ≤ kv.1)
    (hnodup : (amap.map (fun kv => kv.1)).Nodup)
    (hvals : ∀ kv ∈ amap, validVal kv.2 = true) :
    ∀ e, (setFold amap (paddedAttrs pr amap)).getLast? = some e →
      endsClean e = true := by
  intro e he
  have hlen : (setFold amap (paddedAttrs pr amap)).length
      = (paddedAttrs pr amap).length := length_setFold ..
  have hne : setFold amap (paddedAttrs pr amap) ≠ [] := by
    intro hn; rw [hn] at he; simp at he
  have hLpos : 0 < (paddedAttrs pr amap).length := by
    rw [← hlen]
    exact List.length_pos.mpr hne
  rw [List.getLast?_eq_getElem?, hlen] at he
  have hbounds : ∀ kv ∈ amap, 1 ≤ kv.1 ∧
      kv.1 ≤ ((paddedAttrs pr amap).length : Int) := fun kv hkv =>
    ⟨hkeys kv hkv, le_trans (le_maxKey hkv) (maxKey_le_paddedLength pr amap)⟩
  by_cases htouch : ∃ kv ∈ amap, kv.1 = ((paddedAttrs pr amap).length : Int)
  · obtain ⟨⟨k, v⟩, hkv, hk⟩ := htouch
    have hgot := setFold_getElem?_touched _ _ hkv hnodup hbounds
    have hidx : (k - 1).toNat = (paddedAttrs pr amap).length - 1 := by
      simp only at hk
      omega
    rw [hidx] at hgot
    rw [hgot] at he
    injection he with he
    rw [← he]
    exact endsClean_renderVal (hvals (k, v) hkv)
  · push_neg at htouch
    have huntouched : ∀ kv ∈ amap,
        (kv.1 - 1).toNat ≠ (paddedAttrs pr amap).length - 1 := by
      intro kv hkv
      have h1 := (hbounds kv hkv).1
      have h2 := (hbounds kv hkv).2
      have h3 := htouch kv hkv
      omega
    rw [setFold_getElem?_untouched _ _ huntouched] at he
    -- no padding happened: otherwise the maximal key would touch the end
    have hnopad : paddedAttrs pr amap = pr.attributes := by
      unfold paddedAttrs
      rw [if_neg]
      intro hgt
      have hmaxpos : 1 ≤ maxKey amap := by
        have h0 : (0 : Int) ≤ (pr.attributes.length : Int) := by positivity
        omega
      have hmapne : amap ≠ [] := by
        intro hn
        rw [hn] at hmaxpos
        simp [maxKey] at hmaxpos
      obtain ⟨⟨k, v⟩, hkv, hk⟩ := List.mem_map.mp (maxKey_mem hmapne)
      apply htouch (k, v) hkv
      have hlen2 := length_paddedAttrs pr amap
      simp only at hk
      rw [hk]
      omega
    rw [hnopad] at he
    apply hattrs
    rw [List.getLast?_eq_getElem?]
    exact he

lemma find?_rewriteStore {key newLine : Str}
    (hhit : readLineHit key newLine = true) :
    ∀ {store : List Str} {l : Str},
      store.find? (readLineHit key) = some l →
      (rewriteStore key newLine store).find? (readLineHit key) = some newLine
  | [], l, h => by simp at h
  | line :: rest, l, h => by
    unfold rewriteStore
    rw [List.map_cons]
    by_cases hl : readLineHit key line = true
    · rw [if_pos (readLineHit_eq_updLineHit key line ▸ hl)]
      exact List.find?_cons_of_pos _ hhit
    · rw [if_neg (by rw [← readLineHit_eq_updLineHit]; simpa using hl)]
      rw [List.find?_cons_of_neg _ hl] at h
      rw [List.find?_cons_of_neg _ hl]
      exact find?_rewriteStore hhit h

/-- C3 counterexample: supplying a scalar whose string form contains the
Attribute delimiter breaks the round-trip — `update({1: "x^y"})` then
re-read and `extract(1)` yields `"x"`, not the supplied `"x^y"`. -/
theorem C3_counterexample :
    (match update (read ("101".toList) (some ["101^a^b".toList]))
        [(1, PyVal.scalar ("x^y".toList))] ["101^a^b".toList] with
      | .ok res => extract (read ("101".toList) (some res.store)) 1 none none
      | .error _ => [])
      = "x".toList
    ∧ ("x".toList : Str) ≠ "x^y".toList := by decide

/-- C3 (amended): the round-trip holds for a record found by `read`
under a nonempty key containing no Attribute delimiter and no line
terminator, provided every supplied scalar (and sequence element), in
string form, contains no Attribute delimiter, no line feed and no
carriage return (Python's universal-newlines read treats both as line
terminators), and does not end in a Python-whitespace character that
re-reading would strip (`validVal`): after a successful `update`,
re-reading the key and extracting each updated position returns
exactly the supplied value — scalars as their string form, sequences
joined by the Value delimiter (`renderVal`). -/
theorem C3_roundtrip (store : List Str) (key : Str)
    (amap : List (Int × PyVal))
    (hkey : key ≠ [])
    (hkeyAM : AM ∉ key)
    (hkeyNL : '\n' ∉ key)
    (hkeyCR : '\r' ∉ key)
    (hfound : (read key (some store)).raw_data ≠ none)
    (hkeys : ∀ kv ∈ amap, 1 ≤ kv.1)
    (hnodup : (amap.map (fun kv => kv.1)).Nodup)
    (hvals : ∀ kv ∈ amap, validVal kv.2 = true) :
    ∃ res, update (read key (some store)) amap store = Except.ok res ∧
      ∀ kv ∈ amap,
        extract (read key (some res.store)) kv.1 none none = renderVal kv.2 := by
  obtain ⟨l, hl⟩ : ∃ l, store.find? (readLineHit key) = some l := by
    cases hf : store.find? (readLineHit key) with
    | some l => exact ⟨l, rfl⟩
    | none =>
      exfalso
      apply hfound
      show (readLines key store).raw_data = none
      rw [readLines_eq_find? key store, hf]
      rfl
  have hpr : read key (some store)
      = mkPickRecord key (some (afterFirst AM (pyStrip l))) := by
    show readLines key store = _
    rw [readLines_eq_find? key store, hl]
  rw [hpr]
  set r := afterFirst AM (pyStrip l) with hrdef
  set pr2 := mkPickRecord key (some r) with hpr2def
  -- facts about the matched line and the key
  have hhit : readLineHit key l = true := List.find?_some hl
  have hhit2 : (!(pyStrip l).isEmpty) = true ∧
      (key ++ [AM]).isPrefixOf (pyStrip l) = true := by
    rw [← Bool.and_eq_true]
    exact hhit
  have hpfx : key ++ [AM] <+: pyStrip l :=
    List.isPrefixOf_iff_prefix.mp hhit2.2
  have hkeyHead : headClean key = true := by
    rw [headClean_iff]
    intro c hc
    have h1 := headClean_pyStrip l
    rw [headClean_iff] at h1
    apply h1
    rw [head?_eq_of_pfx hpfx (by simp)]
    cases key with
    | nil => exact absurd rfl hkey
    | cons a as => simpa using hc
  have hrEnds : endsClean r = true := by
    rw [hrdef]
    exact endsClean_afterFirst (endsClean_pyStrip l)
  -- facts about the record's attributes
  have hattrs_eq : pr2.attributes = if r = [] then [] else r.splitOn AM := by
    rw [hpr2def]
    rfl
  have hattrs_no_AM : ∀ x ∈ pr2.attributes, AM ∉ x := by
    rw [hattrs_eq]
    by_cases hr0 : r = []
    · rw [if_pos hr0]
      intro x hx
      simp at hx
    · rw [if_neg hr0]
      intro x hx
      exact sep_not_mem_of_mem_splitOn hx
  have hattrs_last : ∀ e, pr2.attributes.getLast? = some e →
      endsClean e = true := by
    rw [hattrs_eq]
    by_cases hr0 : r = []
    · rw [if_pos hr0]
      intro e he
      simp at he
    · rw [if_neg hr0]
      intro e he
      exact endsClean_getLast_splitOn (by decide) hrEnds he
  -- the update succeeds
  set A2 := setFold amap (paddedAttrs pr2 amap) with hA2def
  set nr := pyJoin AM A2 with hnrdef
  have hbounds2 : ∀ kv ∈ amap, 1 ≤ kv.1 ∧
      kv.1 ≤ ((paddedAttrs pr2 amap).length : Int) := fun kv hkv =>
    ⟨hkeys kv hkv, le_trans (le_maxKey hkv) (maxKey_le_paddedLength pr2 amap)⟩
  have hnr : buildNewRaw pr2 amap = some nr := by
    rw [hnrdef, hA2def]
    exact buildNewRaw_eq hkeys
  have hkey2 : pr2.record_key ≠ [] := by
    rw [hpr2def]
    exact hkey
  have hupd := update_eq_ok store hkey2 hnr
  refine ⟨_, hupd, ?_⟩
  intro kv hkv
  show extract (read key (some (rewriteStore key (key ++ AM :: nr) store)))
      kv.1 none none = renderVal kv.2
  -- the rewritten line strips to itself and matches
  have hULhead : headClean (key ++ AM :: nr) = true := by
    cases key with
    | nil => exact absurd rfl hkey
    | cons a as =>
      have ha : isPySpace a = false := by
        rw [headClean_iff] at hkeyHead
        exact hkeyHead a rfl
      rw [headClean_iff]
      intro c hc
      have : c = a := by simpa using hc.symm
      rw [this]
      exact ha
  have hULends : endsClean (key ++ AM :: nr) = true := by
    rw [endsClean_iff]
    intro c hc
    rw [List.getLast?_append_of_ne_nil key (by simp)] at hc
    by_cases hnr0 : nr = []
    · rw [hnr0] at hc
      simp at hc
      rw [← hc]
      decide
    · rw [show (AM :: nr) = [AM] ++ nr from rfl,
        List.getLast?_append_of_ne_nil [AM] hnr0] at hc
      have hclean : endsClean nr = true := by
        rw [hnrdef]
        refine endsClean_pyJoin (by decide) A2 ?_
        rw [hA2def]
        exact endsClean_setFold_getLast hattrs_last hkeys hnodup hvals
      rw [endsClean_iff] at hclean
      exact hclean c hc
  have hULstrip : pyStrip (key ++ AM :: nr) = key ++ AM :: nr :=
    pyStrip_eq_self hULhead hULends
  have hULhit : readLineHit key (key ++ AM :: nr) = true := by
    unfold readLineHit
    rw [hULstrip, Bool.and_eq_true]
    constructor
    · cases key <;> simp
    · rw [List.isPrefixOf_iff_prefix]
      exact ⟨nr, by simp⟩
  have hfind2 := find?_rewriteStore hULhit hl
  have hreread : read key (some (rewriteStore key (key ++ AM :: nr) store))
      = mkPickRecord key (some nr) := by
    have h1 : readLines key (rewriteStore key (key ++ AM :: nr) store)
        = mkPickRecord key (some (afterFirst AM (pyStrip (key ++ AM :: nr)))) := by
      rw [readLines_eq_find? key _, hfind2]
    show readLines key _ = _
    rw [h1, hULstrip, afterFirst_append_cons nr hkeyAM]
  rw [hreread]
  -- position bookkeeping
  have hk1 : 1 ≤ kv.1 := hkeys kv hkv
  have hkmax : kv.1 ≤ maxKey amap := le_maxKey hkv
  have hmaxlen : maxKey amap ≤ ((paddedAttrs pr2 amap).length : Int) :=
    maxKey_le_paddedLength pr2 amap
  have hlenA2 : A2.length = (paddedAttrs pr2 amap).length := by
    rw [hA2def]
    exact length_setFold ..
  have hgot : A2[(kv.1 - 1).toNat]? = some (renderVal kv.2) := by
    rw [hA2def]
    exact setFold_getElem?_touched _ _ hkv hnodup hbounds2
  by_cases hnr0 : nr = []
  · -- degenerate: the whole raw string joined to "", so A2 = [[""]]-like
    have h12 : A2 = [] ∨ A2 = [[]] := (pyJoin_eq_nil_iff AM).mp (by
      rw [← hnrdef]
      exact hnr0)
    have hA2ne : A2 ≠ [] := by
      intro h0
      have hz : (paddedAttrs pr2 amap).length = 0 := by
        rw [← hlenA2, h0]
        rfl
      omega
    have hA2e : A2 = [[]] := h12.resolve_left hA2ne
    have hL1 : A2.length = 1 := by rw [hA2e]; rfl
    have hkeq : kv.1 = 1 := by omega
    have hrv : renderVal kv.2 = [] := by
      rw [hA2e, hkeq] at hgot
      simpa using hgot.symm
    have hcond : ¬(0 ≤ kv.1 - 1 ∧ kv.1 - 1 <
        ((mkPickRecord key (some ([] : Str))).attributes.length : Int)) := by
      have hz : (mkPickRecord key (some ([] : Str))).attributes = [] := rfl
      rw [hz]
      simp only [List.length_nil, Nat.cast_zero]
      omega
    rw [hnr0, hrv]
    simp only [extract]
    rw [if_neg hcond]
  · -- regular case: the re-read record's attributes are exactly A2
    have hA2ne : A2 ≠ [] := by
      intro h0
      apply hnr0
      rw [hnrdef, h0]
      rfl
    have hAMfree : ∀ x ∈ A2, AM ∉ x := by
      intro x hx
      rw [hA2def] at hx
      rcases mem_setFold _ _ hx with hx2 | ⟨kv2, hkv2, hx2⟩
      · rcases mem_paddedAttrs hx2 with hx3 | hx3
        · exact hattrs_no_AM x hx3
        · rw [hx3]
          simp
      · rw [hx2]
        exact AM_not_mem_renderVal (hvals kv2 hkv2)
    have hsplit : nr.splitOn AM = A2 := by
      rw [hnrdef]
      exact splitOn_pyJoin hAMfree hA2ne
    have hreAttrs : (mkPickRecord key (some nr)).attributes = A2 := by
      show (if nr = [] then [] else nr.splitOn AM) = A2
      rw [if_neg hnr0, hsplit]
    have hbound : 0 ≤ kv.1 - 1 ∧ kv.1 - 1 <
        ((mkPickRecord key (some nr)).attributes.length : Int) := by
      rw [hreAttrs]
      omega
    have hgetD : (mkPickRecord key (some nr)).attributes.getD
        (kv.1 - 1).toNat [] = renderVal kv.2 := by
      rw [hreAttrs, List.getD_eq_getElem?_getD, hgot]
      rfl
    simp only [extract]
    rw [if_pos hbound, hgetD]
    by_cases hrv0 : renderVal kv.2 = []
    · rw [if_pos hrv0, hrv0]
    · rw [if_neg hrv0]
      show (if pyTruthy none = true then _ else renderVal kv.2) = renderVal kv.2
      rw [if_neg (by simp [pyTruthy])]

/-- C3 witness: a concrete found record updated with a scalar, a
sequence, and a beyond-length position round-trips every updated
position. -/
theorem C3_witness :
    ∃ res, update (read ("101".toList) (some ["101^John^1]2".toList]))
        [(1, PyVal.scalar ("Jane".toList)),
         (2, PyVal.seq ["9".toList, "8".toList]),
         (4, PyVal.scalar ("z".toList))]
        ["101^John^1]2".toList] = Except.ok res ∧
      ∀ kv ∈ [(1, PyVal.scalar ("Jane".toList)),
              (2, PyVal.seq ["9".toList, "8".toList]),
              (4, PyVal.scalar ("z".toList))],
        extract (read ("101".toList) (some res.store)) kv.1 none none
          = renderVal kv.2 :=
  C3_roundtrip ["101^John^1]2".toList] ("101".toList)
    [(1, PyVal.scalar ("Jane".toList)),
     (2, PyVal.seq ["9".toList, "8".toList]),
     (4, PyVal.scalar ("z".toList))]
    (by decide) (by decide) (by decide) (by decide) (by decide) (by decide)
    (by decide) (by decide)

end UniBridge
